import Mathlib

/-!
Shallow embedding of the transport-selection and streaming layer of the
shiplift Docker client (`src/docker.rs`), together with theorems that check
the natural-language specification's claims against the embedded code.

External collaborators that the code uses (hyper's client builder, rustls and
rustls-pemfile, serde_json's value and stream deserializers, and the
futures/futures_codec combinators) are embedded at the level of their
documented observable behaviour; repository components that live outside
`src/` (the `Transport` union, the error enumeration) are modelled from the
specification, which defines them, and from their construction sites in
`docker.rs`.
-/

/-! ## Small character and digit utilities -/

/-- Decides whether a character is an ASCII decimal digit. -/
def isDigitC (c : Char) : Bool := 48 ≤ c.toNat && c.toNat ≤ 57

/-- Numeric value of an ASCII digit character. -/
def digitVal (c : Char) : Nat := c.toNat - 48

/-- Folds a digit string into the natural number it denotes. -/
def natFromDigitsAux (acc : Nat) : List Char → Nat
  | [] => acc
  | c :: cs => natFromDigitsAux (acc * 10 + digitVal c) cs

/-! ## Clients, connectors and the Transport union -/

/-- Maximum value of a 64-bit `usize`; hyper's client builder uses it as the
default for `pool_max_idle_per_host` (meaning: no limit on idle pooled
connections per host). -/
def usize_max : Nat := 2 ^ 64 - 1

/-- TLS client configuration as assembled by `get_https_connector`
(docker.rs:73, `rust-tls` feature): trust roots, client certificate chain and
private key.  Certificates and keys are identified by the numeric tag they
carry in the modelled file system. -/
structure TlsClientConfig where
  rootStore : List Nat
  clientCerts : List Nat
  key : Nat
deriving DecidableEq

/-- The low-level connector a hyper client is built over. -/
inductive Connector where
  | http
  | https (cfg : TlsClientConfig)
  | unixSock
deriving DecidableEq

/-- Configuration of a hyper `Client` that the embedding tracks. -/
structure HttpClient where
  connector : Connector
  poolMaxIdlePerHost : Nat
deriving DecidableEq

/-- State of hyper's `Client::builder()`; the default idle-pool limit is
`usize::MAX`. -/
structure ClientBuilder where
  poolMaxIdlePerHost : Nat
deriving DecidableEq

/-- Models `Client::builder()`. -/
def Client.builder : ClientBuilder := ⟨usize_max⟩

/-- Models `hyper::client::Builder::pool_max_idle_per_host`. -/
def ClientBuilder.pool_max_idle_per_host (b : ClientBuilder) (n : Nat) : ClientBuilder :=
  { b with poolMaxIdlePerHost := n }

/-- Models `hyper::client::Builder::build` over a given connector. -/
def ClientBuilder.build (b : ClientBuilder) (c : Connector) : HttpClient :=
  ⟨c, b.poolMaxIdlePerHost⟩

/-- Modelled from the spec: `Transport` (defined in the repository's
`transport.rs`, which is not under `src/`) is a tagged union over exactly
three variants — `Unix {client, path}`, `Tcp {client, host}` and
`EncryptedTcp {client, host}` — exactly as constructed at the call sites in
`docker.rs`. -/
inductive Transport where
  | Unix (client : HttpClient) (path : String)
  | Tcp (client : HttpClient) (host : String)
  | EncryptedTcp (client : HttpClient) (host : String)
deriving DecidableEq

/-- The `Docker` entrypoint struct wraps one `Transport` (docker.rs:46). -/
structure Docker where
  transport : Transport
deriving DecidableEq

/-- Recognizer for the Unix variant. -/
def Transport.isUnix : Transport → Bool
  | .Unix _ _ => true
  | _ => false

/-- Recognizer for the plain-TCP variant. -/
def Transport.isTcp : Transport → Bool
  | .Tcp _ _ => true
  | _ => false

/-- Recognizer for the encrypted-TCP variant. -/
def Transport.isEncryptedTcp : Transport → Bool
  | .EncryptedTcp _ _ => true
  | _ => false

/-- Host string stored on a transport: the network variants store the
canonical host string, the Unix variant stores none. -/
def Transport.hostStr : Transport → Option String
  | .Unix _ _ => none
  | .Tcp _ h => some h
  | .EncryptedTcp _ h => some h

/-! ## Environment and file system -/

/-- An environment: a map from variable names to values, as consulted by
`std::env::var`. -/
def EnvMap : Type := String → Option String

/-- PEM items as classified by `rustls_pemfile`; payloads are numeric tags
standing for the items' DER bytes. -/
inductive PemItem where
  | x509Certificate (cert : Nat)
  | rsaKey (key : Nat)
  | pkcs8Key (key : Nat)
  | ecKey (key : Nat)
deriving DecidableEq

/-- Content of a file in the modelled file system: either a PEM file holding
a list of PEM items, or the raw DER encoding of a single certificate.  The
distinction matters because `rustls::RootCertStore::add_parsable_certificates`
accepts only DER input while the `rustls_pemfile` readers understand only PEM
armor. -/
inductive FileContent where
  | pem (items : List PemItem)
  | derCert (cert : Nat)
deriving DecidableEq

/-- A file system: a map from paths to file contents. -/
def FsMap : Type := String → Option FileContent

/-- `read_to_bytes` (docker.rs:65): opens a file and returns its bytes, or an
I/O error when the file is missing. -/
def read_to_bytes (fs : FsMap) (f : String) : Except String FileContent :=
  match fs f with
  | some content => .ok content
  | none => .error "No such file or directory"

/-- Models `rustls_pemfile::read_all`: every PEM item found in the file;
content that is not PEM armor contains no PEM sections. -/
def pemReadAll (c : FileContent) : List PemItem :=
  match c with
  | .pem items => items
  | .derCert _ => []

/-- Models `rustls_pemfile::read_one`: the first PEM item of the file, if
any. -/
def pemReadOne (c : FileContent) : Option PemItem :=
  (pemReadAll c).head?

/-- `read_certs` (docker.rs:78): all X.509 certificates among the PEM items
of the file; items of any other kind are silently filtered out. -/
def read_certs (fs : FsMap) (f : String) : Except String (List Nat) :=
  match read_to_bytes fs f with
  | .error e => .error e
  | .ok c => .ok ((pemReadAll c).filterMap fun i =>
      match i with
      | .x509Certificate x => some x
      | _ => none)

/-- Result of `read_key`: the key bytes, an `io::Error`, or a Rust panic. -/
inductive KeyResult where
  | ok (key : Nat)
  | ioError (msg : String)
  | panicked (msg : String)
deriving DecidableEq

/-- `read_key` (docker.rs:84): reads the first PEM item of `key.pem` and
accepts it when it is an RSA or PKCS8 key (any further items in the file are
never looked at); on any other first item — an EC key, a certificate, or an
empty file — it executes `panic!("Not a private key")`; a missing file is an
`io::Error` propagated with `?`. -/
def read_key (fs : FsMap) (f : String) : KeyResult :=
  match fs f with
  | none => .ioError "No such file or directory"
  | some content =>
    match pemReadOne content with
    | some (.rsaKey k) => .ok k
    | some (.pkcs8Key k) => .ok k
    | _ => .panicked "Not a private key"

/-- Models `rustls::RootCertStore::add_parsable_certificates`: each element
of the input slice is parsed as one DER-encoded certificate and added when it
parses; elements that do not parse as DER (such as PEM-armored text) are
counted as ignored and contribute nothing. -/
def add_parsable_certificates (store : List Nat) (blobs : List FileContent) : List Nat :=
  store ++ blobs.filterMap fun b =>
    match b with
    | .derCert c => some c
    | .pem _ => none

/-- Result of running code that may `panic!`, directly or through `unwrap`
and `expect`. -/
inductive Outcome (α : Type) where
  | ok (a : α)
  | panicked (msg : String)
deriving DecidableEq

/-- `get_https_connector` (docker.rs:73, `rust-tls` feature): builds the TLS
client configuration.  The trust root starts empty; only when
`DOCKER_TLS_VERIFY` is set is `ca.pem` read (through `unwrap`, so a missing
file panics), and its raw bytes are handed to `add_parsable_certificates` as
a single DER candidate.  The client certificate list and private key are
loaded through `unwrap`, so their I/O errors become panics, and `read_key`'s
own panic propagates. -/
def get_https_connector (env : EnvMap) (fs : FsMap) (docker_cert_path : String) :
    Outcome TlsClientConfig :=
  let rootStep : Outcome (List Nat) :=
    if (env "DOCKER_TLS_VERIFY").isSome then
      match read_to_bytes fs (docker_cert_path ++ "/ca.pem") with
      | .error e => .panicked e
      | .ok bytes => .ok (add_parsable_certificates [] [bytes])
    else .ok []
  match rootStep with
  | .panicked m => .panicked m
  | .ok rootStore =>
    match read_certs fs (docker_cert_path ++ "/cert.pem") with
    | .error e => .panicked e
    | .ok certs =>
      match read_key fs (docker_cert_path ++ "/key.pem") with
      | .ioError m => .panicked m
      | .panicked m => .panicked m
      | .ok key => .ok ⟨rootStore, certs, key⟩

/-! ## Transport selection -/

/-- `get_docker_for_tcp_http` (docker.rs:132): plain-TCP transport over a
default-configured client. -/
def get_docker_for_tcp_http (tcp_host_str : String) : Docker :=
  ⟨.Tcp (Client.builder.build .http) tcp_host_str⟩

/-- `get_docker_for_tcp_https` (docker.rs:143): encrypted transport whose
client is built over the connector loaded from the certificate directory. -/
def get_docker_for_tcp_https (env : EnvMap) (fs : FsMap)
    (tcp_host_str docker_cert_path : String) : Outcome Docker :=
  match get_https_connector env fs docker_cert_path with
  | .panicked m => .panicked m
  | .ok cfg => .ok ⟨.EncryptedTcp (Client.builder.build (.https cfg)) tcp_host_str⟩

/-- `get_docker_for_tcp` (docker.rs:158, build with a TLS feature enabled):
selects the encrypted transport exactly when `DOCKER_CERT_PATH` is set. -/
def get_docker_for_tcp (env : EnvMap) (fs : FsMap) (tcp_host_str : String) :
    Outcome Docker :=
  match env "DOCKER_CERT_PATH" with
  | some certs => get_docker_for_tcp_https env fs tcp_host_str certs
  | none => .ok (get_docker_for_tcp_http tcp_host_str)

/-- `Docker::unix` (docker.rs:176): Unix transport whose client is built with
`pool_max_idle_per_host(0)`. -/
def Docker.unix (socket_path : String) : Docker :=
  ⟨.Unix ((Client.builder.pool_max_idle_per_host 0).build .unixSock) socket_path⟩

/-- The pieces of an `http::Uri` that `Docker::host` consumes. -/
structure Uri where
  scheme : Option String
  host : Option String
  port : Option Nat
  path : String
deriving DecidableEq

/-- `Docker::host` (docker.rs:191): the canonical `scheme://host:port` string
is formatted first — its `unwrap`s panic when the scheme or the host is
absent — and then the scheme selects the transport: `unix` yields the Unix
variant built from a default client builder (without
`pool_max_idle_per_host(0)`), and any other scheme defers to
`get_docker_for_tcp`. -/
def Docker.host (env : EnvMap) (fs : FsMap) (host : Uri) : Outcome Docker :=
  match host.scheme, host.host with
  | some s, some h =>
    if s = "unix" then .ok ⟨.Unix (Client.builder.build .unixSock) host.path⟩
    else get_docker_for_tcp env fs (s ++ "://" ++ h ++ ":" ++ toString (host.port.getD 80))
  | _, _ => .panicked "scheme or host missing"

/-- Splits a character list at the first occurrence of `://`, returning the
scheme characters and the remainder; a colon not followed by two slashes does
not start an absolute-form URI in this model. -/
def splitScheme : List Char → Option (List Char × List Char)
  | [] => none
  | ':' :: '/' :: '/' :: rest => some ([], rest)
  | ':' :: _ => none
  | c :: cs =>
    match splitScheme cs with
    | some (sch, rest) => some (c :: sch, rest)
    | none => none

/-- Parses the port part of an authority: everything after the first colon
must be a nonempty digit string. -/
def parseAuthority (cs : List Char) : Option (String × Option Nat) :=
  let hostPart := cs.takeWhile (· != ':')
  let restPart := cs.dropWhile (· != ':')
  match restPart with
  | [] => some (String.mk hostPart, none)
  | _ :: portChars =>
    if portChars ≠ [] ∧ portChars.all isDigitC then
      some (String.mk hostPart, some (natFromDigitsAux 0 portChars))
    else none

/-- Models `http::Uri` parsing (the `.parse()` in `Docker::new`) for
absolute-form URIs `scheme://authority/path` without userinfo or IPv6
literals — the only shapes a `DOCKER_HOST` address takes in this repository.
An empty authority (as in `unix:///x.sock`) parses with host `""`, matching
`http::Uri`, and an empty path is reported as `/`. -/
def parseUri (s : String) : Option Uri :=
  match splitScheme s.data with
  | none => none
  | some (sch, rest) =>
    if sch = [] then none
    else
      let authChars := rest.takeWhile (· != '/')
      let pathChars := rest.dropWhile (· != '/')
      match parseAuthority authChars with
      | none => none
      | some (h, p) =>
        some ⟨some (String.mk sch), some h, p,
              if pathChars = [] then "/" else String.mk pathChars⟩

/-- `Docker::new` (docker.rs:169): reads `DOCKER_HOST`, falls back to
`unix:///var/run/docker.sock`, parses the address (`expect` panics on a
malformed url) and delegates to `Docker::host`. -/
def Docker.new (env : EnvMap) (fs : FsMap) : Outcome Docker :=
  match parseUri ((env "DOCKER_HOST").getD "unix:///var/run/docker.sock") with
  | none => .panicked "invalid url"
  | some uri => Docker.host env fs uri

/-! ## JSON values and the serde_json parser model -/

/-- The opening-brace character, written by code point. -/
def lbrace : Char := Char.ofNat 123

/-- The closing-brace character, written by code point. -/
def rbrace : Char := Char.ofNat 125

/-- JSON values in the fragment the model covers: the claims' payloads are
null/boolean/integer/string scalars and nested arrays and objects.  Floats
are outside the model (the decoders under verification are exercised only on
integer payloads). -/
inductive Json where
  | jnull
  | jbool (flag : Bool)
  | jnum (int : Int)
  | jstr (text : String)
  | jarr (items : List Json)
  | jobj (members : List (String × Json))

/-- JSON whitespace as skipped by serde_json. -/
def isWsChar (c : Char) : Bool :=
  c.toNat = 32 || c.toNat = 9 || c.toNat = 10 || c.toNat = 13

/-- Drops leading JSON whitespace. -/
def skipWs : List Char → List Char
  | [] => []
  | c :: cs => if isWsChar c then skipWs cs else c :: cs

/-- Body of a JSON string after the opening quote; the model covers strings
without escape sequences (a backslash is rejected). -/
def parseStringBody : List Char → List Char → Option (String × List Char)
  | [], _ => none
  | c :: cs, acc =>
    if c = '"' then some (String.mk acc.reverse, cs)
    else if c = '\\' then none
    else parseStringBody cs (c :: acc)

/-- Expects the given literal characters at the head of the input. -/
def expectLit (lit : List Char) (cs : List Char) (v : Json) :
    Except String (Json × List Char) :=
  if cs.take lit.length = lit then .ok (v, cs.drop lit.length)
  else .error "expected ident"

/-- Digits of an unsigned decimal integer, then a rejection of the float
forms the model leaves out. -/
def parseIntAfterSign (neg : Bool) (cs : List Char) :
    Except String (Json × List Char) :=
  let ds := cs.takeWhile isDigitC
  let rest := cs.dropWhile isDigitC
  if ds = [] then .error "invalid number"
  else if rest.head? = some '.' ∨ rest.head? = some 'e' ∨ rest.head? = some 'E' then
    .error "float not modelled"
  else
    let n : Int := Int.ofNat (natFromDigitsAux 0 ds)
    .ok (.jnum (if neg then -n else n), rest)

mutual

/-- Recursive-descent parser for one JSON value, modelling what
`serde_json::Deserializer` accepts on the covered fragment; `fuel` bounds the
recursion and is in practice larger than the input needs. -/
def parseValue : Nat → List Char → Except String (Json × List Char)
  | 0, _ => .error "recursion limit reached"
  | fuel + 1, cs =>
    match skipWs cs with
    | [] => .error "EOF while parsing a value"
    | c :: rest =>
      if c = 'n' then expectLit ['u', 'l', 'l'] rest .jnull
      else if c = 't' then expectLit ['r', 'u', 'e'] rest (.jbool true)
      else if c = 'f' then expectLit ['a', 'l', 's', 'e'] rest (.jbool false)
      else if c = '"' then
        match parseStringBody rest [] with
        | some (s, r) => .ok (.jstr s, r)
        | none => .error "unterminated or escaped string"
      else if c = '-' then parseIntAfterSign true rest
      else if isDigitC c then parseIntAfterSign false (c :: rest)
      else if c = '[' then
        if (skipWs rest).head? = some ']' then .ok (.jarr [], (skipWs rest).tail)
        else
          match parseArrElems fuel (skipWs rest) with
          | .ok (vs, r) => .ok (.jarr vs, r)
          | .error e => .error e
      else if c = lbrace then
        if (skipWs rest).head? = some rbrace then .ok (.jobj [], (skipWs rest).tail)
        else
          match parseObjElems fuel (skipWs rest) with
          | .ok (kvs, r) => .ok (.jobj kvs, r)
          | .error e => .error e
      else .error "expected value"

/-- One or more comma-separated array elements followed by `]`. -/
def parseArrElems : Nat → List Char → Except String (List Json × List Char)
  | 0, _ => .error "recursion limit reached"
  | fuel + 1, cs =>
    match parseValue fuel cs with
    | .error e => .error e
    | .ok (v, rest) =>
      match skipWs rest with
      | [] => .error "EOF while parsing an array"
      | c :: r2 =>
        if c = ',' then
          match parseArrElems fuel r2 with
          | .ok (vs, r3) => .ok (v :: vs, r3)
          | .error e => .error e
        else if c = ']' then .ok ([v], r2)
        else .error "expected comma or bracket"

/-- One or more comma-separated `"key": value` object members followed by the
closing brace. -/
def parseObjElems : Nat → List Char → Except String (List (String × Json) × List Char)
  | 0, _ => .error "recursion limit reached"
  | fuel + 1, cs =>
    match skipWs cs with
    | [] => .error "EOF while parsing an object"
    | c :: rest =>
      if c = '"' then
        match parseStringBody rest [] with
        | none => .error "unterminated or escaped string"
        | some (k, r2) =>
          match skipWs r2 with
          | [] => .error "EOF while parsing an object"
          | c2 :: r3 =>
            if c2 = ':' then
              match parseValue fuel r3 with
              | .error e => .error e
              | .ok (v, r4) =>
                match skipWs r4 with
                | [] => .error "EOF while parsing an object"
                | c3 :: r5 =>
                  if c3 = ',' then
                    match parseObjElems fuel r5 with
                    | .ok (kvs, r6) => .ok ((k, v) :: kvs, r6)
                    | .error e => .error e
                  else if c3 = rbrace then .ok ([(k, v)], r5)
                  else .error "expected comma or brace"
            else .error "expected colon"
      else .error "key must be a string"

end

/-- Characters `serde_json`'s stream deserializer accepts directly after a
non-self-delineating document (its `peek_end_of_value` check): JSON
whitespace, the structural characters, and a quote or opening bracket. -/
def endOfValueOk (c : Char) : Bool :=
  isWsChar c || c = '"' || c = '[' || c = ']' || c = lbrace || c = rbrace ||
    c = ',' || c = ':'

/-- First bytes of documents that delineate their own end (strings, arrays,
objects), as `serde_json`'s stream deserializer classifies them before
parsing each document. -/
def selfDelineating (c : Char) : Bool :=
  c = '"' || c = '[' || c = lbrace

/-- One step list of documents: models `serde_json::StreamDeserializer`'s
iterator.  It yields parsed values until the input is exhausted; on the first
parse failure it yields that error once and then stops (its `failed` flag
ends the iteration, so an error is always the last item); and after a
successful document whose first byte was not self-delineating it runs
`peek_end_of_value`: unless the next character is whitespace, a structural
character, or the end of input, the value is discarded and a terminal
trailing-characters error is yielded instead. -/
def streamLoop : Nat → List Char → List (Except String Json)
  | 0, _ => []
  | fuel + 1, cs =>
    match skipWs cs with
    | [] => []
    | c :: rest =>
      match parseValue ((c :: rest).length + 1) (c :: rest) with
      | .ok (v, r2) =>
        if selfDelineating c then .ok v :: streamLoop fuel r2
        else
          match r2.head? with
          | none => .ok v :: streamLoop fuel r2
          | some c2 =>
            if endOfValueOk c2 then .ok v :: streamLoop fuel r2
            else [.error "trailing characters"]
      | .error e => [.error e]

/-- `serde_json::Deserializer::from_slice(..).into_iter().collect()` on a
chunk: every complete document in order, then at most one trailing error. -/
def serdeStreamDecode (cs : List Char) : List (Except String Json) :=
  streamLoop (cs.length + 1) cs

/-- `serde_json::from_str` on the covered fragment: exactly one document, and
only whitespace may follow it. -/
def from_str (cs : List Char) : Except String Json :=
  match parseValue (cs.length + 1) cs with
  | .error e => .error e
  | .ok (v, rest) => if skipWs rest = [] then .ok v else .error "trailing characters"

/-! ## The chunked JSON stream decoder (`stream_post_into`) -/

/-- Modelled from the spec: the crate's error enumeration (`errors.rs`, not
under `src/`), restricted to the variants the streaming layer produces:
serde decode errors (`Error::SerdeJsonError` / `Error::from`) and I/O errors
(`Error::IO`). -/
inductive StreamErr where
  | serdeJson (msg : String)
  | ioErr (msg : String)
deriving DecidableEq

/-- Decodes one chunk the way the closure in `stream_post_into`
(docker.rs:400) does: `serde_json::Deserializer::from_slice(&chunk)
.into_iter().collect::<Vec<_>>()`, with each item's error mapped through
`Error::from`. -/
def chunkDecode (chunk : String) : List (Except StreamErr Json) :=
  (serdeStreamDecode chunk.data).map fun r =>
    match r with
    | .ok v => .ok v
    | .error e => .error (.serdeJson e)

/-- Models `futures_util::TryStreamExt::try_flatten` over finished streams:
its poll loop forwards an `Err` from the outer or the inner stream through
the `Try` short-circuit *without* clearing the stored stream, so an error is
yielded in place and the flattened stream then keeps going with the remaining
items. -/
def tryFlatten {α : Type} :
    List (Except StreamErr (List (Except StreamErr α))) → List (Except StreamErr α)
  | [] => []
  | .error e :: rest => .error e :: tryFlatten rest
  | .ok inner :: rest => inner ++ tryFlatten rest

/-- `Docker::stream_post_into` (docker.rs:400): the chunk stream (each item a
chunk or a transport error) is mapped with `and_then` — which decodes each
`Ok` chunk into its own stream of values and passes errors through — and the
result is flattened with `try_flatten`. -/
def Docker.stream_post_into (chunks : List (Except StreamErr String)) :
    List (Except StreamErr Json) :=
  tryFlatten (chunks.map fun c =>
    match c with
    | .ok chunk => .ok (chunkDecode chunk)
    | .error e => .error e)

/-! ## The line stream decoder (`Docker::events`) -/

/-- Extracts the complete (newline-terminated, newline included) lines from a
buffer, returning them with the unterminated remainder: the repeated
`futures_codec::LinesCodec::decode` calls `FramedRead` performs on one
buffer. -/
def completeLines : List Char → List (List Char) × List Char
  | [] => ([], [])
  | c :: cs =>
    if c = '\n' then ([c] :: (completeLines cs).1, (completeLines cs).2)
    else
      match completeLines cs with
      | ([], r) => ([], c :: r)
      | (l :: ls, r) => ((c :: l) :: ls, r)

/-- `FramedRead` with `LinesCodec` over a chunk stream: each arriving chunk
is appended to the codec buffer and the complete lines are drained; at end of
stream the default `decode_eof` finds no newline in the remainder and the
stream ends. -/
def framedReadLines (buf : List Char) : List String → List String
  | [] => []
  | chunk :: rest =>
    let (ls, buf2) := completeLines (buf ++ chunk.data)
    ls.map String.mk ++ framedReadLines buf2 rest

/-- `Actor` (docker.rs:658) with its serde renames: `ID` and `Attributes`. -/
structure Actor where
  id : String
  attributes : List (String × String)
deriving DecidableEq

/-- `Event` (docker.rs:634, build without the `chrono` feature): serde
renames `Type`, `Action`, `Actor` and `timeNano`; `status`, `id` and `from`
are optional. -/
structure Event where
  typ : String
  action : String
  actor : Actor
  status : Option String
  id : Option String
  from_field : Option String
  time : Nat
  timeNano : Nat
deriving DecidableEq

/-- Looks up a field of a JSON object member list. -/
def getField (fields : List (String × Json)) (k : String) : Option Json :=
  (fields.find? fun kv => kv.1 = k).map fun kv => kv.2

/-- A JSON string, when the value is one. -/
def asString : Json → Option String
  | .jstr s => some s
  | _ => none

/-- A JSON unsigned integer, when the value is one. -/
def asNat : Json → Option Nat
  | .jnum n => if n < 0 then none else some n.toNat
  | _ => none

/-- An optional string field as serde reads `Option<String>`: an absent or
null member is `none`, a string member is `some`, anything else errors. -/
def optStringField (fields : List (String × Json)) (k : String) :
    Except String (Option String) :=
  match getField fields k with
  | none => .ok none
  | some .jnull => .ok none
  | some (.jstr s) => .ok (some s)
  | some _ => .error ("invalid type for field " ++ k)

/-- A required string field. -/
def reqStringField (fields : List (String × Json)) (k : String) : Except String String :=
  match getField fields k with
  | none => .error ("missing field " ++ k)
  | some v =>
    match asString v with
    | some s => .ok s
    | none => .error ("invalid type for field " ++ k)

/-- A required unsigned-integer field. -/
def reqNatField (fields : List (String × Json)) (k : String) : Except String Nat :=
  match getField fields k with
  | none => .error ("missing field " ++ k)
  | some v =>
    match asNat v with
    | some n => .ok n
    | none => .error ("invalid type for field " ++ k)

/-- serde's `HashMap<String, String>` deserialization from a JSON object. -/
def stringMapOfJson : Json → Except String (List (String × String))
  | .jobj kvs =>
    kvs.foldr
      (fun kv acc =>
        match acc, kv.2 with
        | .ok rest, .jstr s => .ok ((kv.1, s) :: rest)
        | .ok _, _ => .error "invalid attribute value"
        | .error e, _ => .error e)
      (.ok [])
  | _ => .error "invalid type for field Attributes"

/-- serde deserialization of `Actor` from a JSON value. -/
def actorOfJson : Json → Except String Actor
  | .jobj kvs =>
    match getField kvs "ID" with
    | none => .error "missing field ID"
    | some idv =>
      match asString idv with
      | none => .error "invalid type for field ID"
      | some idstr =>
        match getField kvs "Attributes" with
        | none => .error "missing field Attributes"
        | some av =>
          match stringMapOfJson av with
          | .error e => .error e
          | .ok attrs => .ok ⟨idstr, attrs⟩
  | _ => .error "invalid type for Actor"

/-- serde deserialization of `Event` from a JSON value: required `Type`,
`Action`, `Actor`, `time` and `timeNano`, optional `status`, `id` and `from`;
unknown members are ignored, as serde does by default. -/
def eventOfJson : Json → Except String Event
  | .jobj kvs =>
    match reqStringField kvs "Type" with
    | .error e => .error e
    | .ok typ =>
      match reqStringField kvs "Action" with
      | .error e => .error e
      | .ok action =>
        match getField kvs "Actor" with
        | none => .error "missing field Actor"
        | some av =>
          match actorOfJson av with
          | .error e => .error e
          | .ok actor =>
            match optStringField kvs "status" with
            | .error e => .error e
            | .ok status =>
              match optStringField kvs "id" with
              | .error e => .error e
              | .ok idf =>
                match optStringField kvs "from" with
                | .error e => .error e
                | .ok fromf =>
                  match reqNatField kvs "time" with
                  | .error e => .error e
                  | .ok time =>
                    match reqNatField kvs "timeNano" with
                    | .error e => .error e
                    | .ok timeNano =>
                      .ok ⟨typ, action, actor, status, idf, fromf, time, timeNano⟩
  | _ => .error "invalid type for Event"

/-- One line through `serde_json::from_str::<Event>`, as the `and_then`
closure in `Docker::events` applies it (errors become
`Error::SerdeJsonError`). -/
def lineToEvent (line : String) : Except StreamErr Event :=
  match from_str line.data with
  | .error e => .error (.serdeJson e)
  | .ok v =>
    match eventOfJson v with
    | .error e => .error (.serdeJson e)
    | .ok ev => .ok ev

/-- `Docker::events` (docker.rs:254) on a stream of body chunks: the chunk
stream is exposed as an `AsyncRead`, framed by `LinesCodec` (which buffers
partial lines across chunk boundaries), and every complete line is
deserialized into an `Event`. -/
def Docker.events (chunks : List String) : List (Except StreamErr Event) :=
  (framedReadLines [] chunks).map lineToEvent

/-! ## Helper recognizers and stream views -/

/-- Recognizer for `Except.ok`. -/
def isOkItem {ε α : Type} : Except ε α → Bool
  | .ok _ => true
  | .error _ => false

/-- Items contributed by one chunk-stream element after the `and_then`
decode step of `stream_post_into`: a transport error passes through as one
error item, a chunk yields its decoded documents. -/
def chunkItems : Except StreamErr String → List (Except StreamErr Json)
  | .ok chunk => chunkDecode chunk
  | .error e => [.error e]

/-- Whether a transport-selection outcome produced a plain-TCP transport. -/
def outcomeIsTcp : Outcome Docker → Bool
  | .ok d => d.transport.isTcp
  | .panicked _ => false

/-- Concatenation of a chunk stream's bytes. -/
def flatChunks (chunks : List String) : List Char := (chunks.map String.data).flatten

/-! ## Concrete environments and file systems used as test inputs -/

/-- Environment where `DOCKER_HOST` requests the plain HTTP address while
`DOCKER_CERT_PATH` is also set. -/
def envHttpWithCerts : EnvMap := fun k =>
  if k = "DOCKER_HOST" then some "http://localhost:8000"
  else if k = "DOCKER_CERT_PATH" then some "/certs" else none

/-- Environment carrying only `DOCKER_CERT_PATH`. -/
def envCertPath : EnvMap := fun k =>
  if k = "DOCKER_CERT_PATH" then some "/certs" else none

/-- Environment carrying only `DOCKER_TLS_VERIFY`. -/
def envTlsVerify : EnvMap := fun k =>
  if k = "DOCKER_TLS_VERIFY" then some "1" else none

/-- Certificate directory holding a PEM client certificate and an RSA key. -/
def fsCerts : FsMap := fun p =>
  if p = "/certs/cert.pem" then some (.pem [.x509Certificate 1])
  else if p = "/certs/key.pem" then some (.pem [.rsaKey 2]) else none

/-- Certificate directory whose `key.pem` holds an elliptic-curve key. -/
def fsKeyEc : FsMap := fun p =>
  if p = "/certs/cert.pem" then some (.pem [.x509Certificate 1])
  else if p = "/certs/key.pem" then some (.pem [.ecKey 5]) else none

/-- Certificate directory whose `key.pem` decodes to zero PEM items. -/
def fsKeyEmpty : FsMap := fun p =>
  if p = "/certs/cert.pem" then some (.pem [.x509Certificate 1])
  else if p = "/certs/key.pem" then some (.pem []) else none

/-- Certificate directory whose `key.pem` holds two RSA keys. -/
def fsKeyTwo : FsMap := fun p =>
  if p = "/certs/cert.pem" then some (.pem [.x509Certificate 1])
  else if p = "/certs/key.pem" then some (.pem [.rsaKey 7, .rsaKey 8]) else none

/-- Certificate directory missing `key.pem`. -/
def fsCertOnly : FsMap := fun p =>
  if p = "/certs/cert.pem" then some (.pem [.x509Certificate 1]) else none

/-- Certificate directory whose `ca.pem` is a PEM bundle (the documented
on-disk layout). -/
def fsPemCa : FsMap := fun p =>
  if p = "/certs/ca.pem" then some (.pem [.x509Certificate 9])
  else if p = "/certs/cert.pem" then some (.pem [.x509Certificate 3])
  else if p = "/certs/key.pem" then some (.pem [.rsaKey 4]) else none

/-- Certificate directory with no `ca.pem` at all. -/
def fsNoCa : FsMap := fun p =>
  if p = "/certs/cert.pem" then some (.pem [.x509Certificate 3])
  else if p = "/certs/key.pem" then some (.pem [.rsaKey 4]) else none

/-- Certificate directory whose `ca.pem` is a single raw DER certificate. -/
def fsDerCa : FsMap := fun p =>
  if p = "/certs/ca.pem" then some (.derCert 9)
  else if p = "/certs/cert.pem" then some (.pem [.x509Certificate 3])
  else if p = "/certs/key.pem" then some (.pem [.rsaKey 4]) else none

/-! ## Concrete chunk fixtures for the stream decoders -/

/-- First chunk of the spec's line-decoder test: one complete line and the
start of the next. -/
def demoChunk1 : String := "\x7b\"a\":1\x7d\n\x7b\"b\""

/-- Second chunk of the spec's line-decoder test: the rest of the split
line. -/
def demoChunk2 : String := ":2\x7d\n"

/-- Two complete Event documents on two lines, the second line split across
the chunk boundary: first chunk. -/
def eventChunk1 : String :=
  "\x7b\"Type\":\"container\",\"Action\":\"start\",\"Actor\":\x7b\"ID\":\"a1\",\"Attributes\":\x7b\x7d\x7d,\"time\":1,\"timeNano\":2\x7d\n\x7b\"Type\":\"image\",\"Action\""

/-- Second chunk completing the split Event line. -/
def eventChunk2 : String :=
  ":\"pull\",\"Actor\":\x7b\"ID\":\"b2\",\"Attributes\":\x7b\x7d\x7d,\"time\":3,\"timeNano\":4\x7d\n"

/-- The event encoded on the first demo line. -/
def eventOne : Event := ⟨"container", "start", ⟨"a1", []⟩, none, none, none, 1, 2⟩

/-- The event encoded on the second demo line. -/
def eventTwo : Event := ⟨"image", "pull", ⟨"b2", []⟩, none, none, none, 3, 4⟩

/-! ## A serializer for the covered JSON fragment, for quantifying over
"chunks holding complete back-to-back documents" -/

/-- Decimal digit characters of a natural number. -/
def natDigits (n : Nat) : List Char :=
  if _h : n < 10 then [Char.ofNat (48 + n)]
  else natDigits (n / 10) ++ [Char.ofNat (48 + n % 10)]
termination_by n
decreasing_by exact Nat.div_lt_self (by omega) (by omega)

/-- `Display` form of an integer. -/
def printInt (n : Int) : List Char :=
  if n < 0 then '-' :: natDigits n.natAbs else natDigits n.natAbs

mutual

/-- Serializer producing the compact rendering of a JSON value (the form
`serde_json::to_string` emits on the covered fragment). -/
def printJson : Json → List Char
  | .jnull => ['n', 'u', 'l', 'l']
  | .jbool true => ['t', 'r', 'u', 'e']
  | .jbool false => ['f', 'a', 'l', 's', 'e']
  | .jnum n => printInt n
  | .jstr s => '"' :: s.data ++ ['"']
  | .jarr [] => ['[', ']']
  | .jarr (x :: xs) => '[' :: (printJson x ++ printJsonTail xs ++ [']'])
  | .jobj [] => [lbrace, rbrace]
  | .jobj (kv :: kvs) => lbrace :: (printField kv ++ printFieldTail kvs ++ [rbrace])

/-- Remaining array elements, each preceded by a comma. -/
def printJsonTail : List Json → List Char
  | [] => []
  | x :: xs => ',' :: (printJson x ++ printJsonTail xs)

/-- One object member. -/
def printField : String × Json → List Char
  | (k, v) => '"' :: k.data ++ '"' :: ':' :: printJson v

/-- Remaining object members, each preceded by a comma. -/
def printFieldTail : List (String × Json) → List Char
  | [] => []
  | kv :: kvs => ',' :: (printField kv ++ printFieldTail kvs)

end

/-- Characters the printer may emit inside a string without escaping. -/
def plainChar (c : Char) : Bool := c != '"' && c != '\\'

mutual

/-- Well-formedness for the parse/print roundtrip: every string (key or
value) is escape-free. -/
def wfJson : Json → Bool
  | .jnull => true
  | .jbool _ => true
  | .jnum _ => true
  | .jstr s => s.data.all plainChar
  | .jarr xs => wfJsonList xs
  | .jobj kvs => wfJsonFields kvs

/-- Well-formedness of a list of array elements. -/
def wfJsonList : List Json → Bool
  | [] => true
  | x :: xs => wfJson x && wfJsonList xs

/-- Well-formedness of a list of object members. -/
def wfJsonFields : List (String × Json) → Bool
  | [] => true
  | (k, v) :: kvs => k.data.all plainChar && wfJson v && wfJsonFields kvs

end

mutual

/-- Structural size of a JSON value, used to bound the parser's fuel. -/
def jsize : Json → Nat
  | .jnull => 1
  | .jbool _ => 1
  | .jnum _ => 1
  | .jstr _ => 1
  | .jarr xs => 1 + jsizeList xs
  | .jobj kvs => 1 + jsizeFields kvs

/-- Summed size of array elements, one extra unit per element. -/
def jsizeList : List Json → Nat
  | [] => 0
  | x :: xs => 1 + jsize x + jsizeList xs

/-- Summed size of object members, one extra unit per member. -/
def jsizeFields : List (String × Json) → Nat
  | [] => 0
  | (_, v) :: kvs => 1 + jsize v + jsizeFields kvs

end

/-- Values whose serialized form starts with a self-delineating byte, so the
stream deserializer skips its end-of-value check after them. -/
def isSelfDelimJson : Json → Bool
  | .jstr _ => true
  | .jarr _ => true
  | .jobj _ => true
  | _ => false

/-- serde's rule for splitting back-to-back documents: a self-delineating
document (string, array, object) needs nothing after it, while after any
other document (number, boolean, null) the stream deserializer's
end-of-value check requires the next character to be whitespace, a
structural character, or the end of input. -/
def delimOkB (v : Json) (rest : List Char) : Bool :=
  if isSelfDelimJson v then true
  else
    match rest.head? with
    | none => true
    | some c => endOfValueOk c

/-- Environment carrying only `DOCKER_HOST=unix:///x.sock`. -/
def envUnixX : EnvMap := fun k =>
  if k = "DOCKER_HOST" then some "unix:///x.sock" else none

/-- Environment carrying only `DOCKER_HOST=http://localhost:8000`. -/
def envHttpOnly : EnvMap := fun k =>
  if k = "DOCKER_HOST" then some "http://localhost:8000" else none

/-- A network-scheme target with an explicit port. -/
def uriHttpPort : Uri := ⟨some "http", some "localhost", some 2375, "/"⟩

/-- A network-scheme target without a port. -/
def uriHttpNoPort : Uri := ⟨some "http", some "localhost", none, "/"⟩

/-! ## Claim theorems: transport selection and TLS material -/

/-- C10: when the environment variable `DOCKER_HOST` is unset,
`Docker::new()` falls back to the default daemon address
`unix:///var/run/docker.sock`, producing the Unix transport variant with
socket path `/var/run/docker.sock`. -/
theorem docker_new_default_host (env : EnvMap) (fs : FsMap)
    (h : env "DOCKER_HOST" = none) :
    Docker.new env fs =
      .ok ⟨.Unix (Client.builder.build .unixSock) "/var/run/docker.sock"⟩ := by
  unfold Docker.new
  rw [h]
  rfl

/-- Witness for the C10 theorem at a concrete empty environment. -/
theorem docker_new_default_host_witness :
    Docker.new (fun _ => none) (fun _ => none) =
      .ok ⟨.Unix (Client.builder.build .unixSock) "/var/run/docker.sock"⟩ :=
  docker_new_default_host (fun _ => none) (fun _ => none) rfl

/-- C1 counterexample: in an environment where `DOCKER_HOST` is
`http://localhost:8000` but `DOCKER_CERT_PATH` is also set, `Docker::new()`
builds the EncryptedTcp variant, not the plain Tcp variant the claim
promises for every environment with that `DOCKER_HOST`. -/
theorem docker_new_http_not_always_tcp :
    envHttpWithCerts "DOCKER_HOST" = some "http://localhost:8000" ∧
    Docker.new envHttpWithCerts fsCerts =
      .ok ⟨.EncryptedTcp (Client.builder.build (.https ⟨[], [1], 2⟩))
          "http://localhost:8000"⟩ ∧
    outcomeIsTcp (Docker.new envHttpWithCerts fsCerts) = false :=
  ⟨rfl, rfl, rfl⟩

/-- C1 (amended): with `DOCKER_HOST=unix:///x.sock` the constructed
transport is the Unix variant with path `/x.sock` in every environment; with
`DOCKER_HOST=http://localhost:8000` it is the plain Tcp variant with host
string `http://localhost:8000` in every environment where
`DOCKER_CERT_PATH` is unset. -/
theorem docker_new_host_env_selection (env : EnvMap) (fs : FsMap) :
    (env "DOCKER_HOST" = some "unix:///x.sock" →
      Docker.new env fs = .ok ⟨.Unix (Client.builder.build .unixSock) "/x.sock"⟩) ∧
    (env "DOCKER_HOST" = some "http://localhost:8000" →
      env "DOCKER_CERT_PATH" = none →
      Docker.new env fs =
        .ok ⟨.Tcp (Client.builder.build .http) "http://localhost:8000"⟩) := by
  constructor
  · intro h
    unfold Docker.new
    rw [h]
    rfl
  · intro h hcp
    unfold Docker.new
    rw [h]
    show get_docker_for_tcp env fs "http://localhost:8000" = _
    unfold get_docker_for_tcp
    rw [hcp]
    rfl

/-- Witness for the C1 amended theorem at concrete environments. -/
theorem docker_new_host_env_selection_witness :
    Docker.new envUnixX (fun _ => none) =
      .ok ⟨.Unix (Client.builder.build .unixSock) "/x.sock"⟩ ∧
    Docker.new envHttpOnly (fun _ => none) =
      .ok ⟨.Tcp (Client.builder.build .http) "http://localhost:8000"⟩ :=
  ⟨(docker_new_host_env_selection envUnixX (fun _ => none)).1 rfl,
   (docker_new_host_env_selection envHttpOnly (fun _ => none)).2 rfl rfl⟩

/-- C2 counterexample: `Docker::host` on a unix-scheme URL yields the Unix
variant, but its client keeps the builder's default idle-pool limit
(`usize::MAX`), not the zero the claim asserts for every construction path
of the Unix variant. -/
theorem docker_host_unix_default_pool :
    Docker.host (fun _ => none) (fun _ => none) ⟨some "unix", some "", none, "/x.sock"⟩ =
      .ok ⟨.Unix ⟨.unixSock, usize_max⟩ "/x.sock"⟩ ∧
    usize_max ≠ 0 :=
  ⟨rfl, by decide⟩

/-- C2 (amended): `Docker::unix` configures its client to keep zero idle
pooled connections per host, but `Docker::host` on a unix-scheme URL builds
the Unix variant over a default client builder, so the zero-idle-pool
setting holds only on the `Docker::unix` construction path. -/
theorem unix_transport_pool_settings (socket_path : String) (env : EnvMap)
    (fs : FsMap) (u : Uri) (h : String) :
    Docker.unix socket_path = ⟨.Unix ⟨.unixSock, 0⟩ socket_path⟩ ∧
    (u.scheme = some "unix" → u.host = some h →
      Docker.host env fs u = .ok ⟨.Unix ⟨.unixSock, usize_max⟩ u.path⟩) := by
  refine ⟨rfl, fun hs hh => ?_⟩
  unfold Docker.host
  simp only [hs, hh]
  rfl

/-- Witness for the C2 amended theorem at a concrete socket path and URL. -/
theorem unix_transport_pool_settings_witness :
    Docker.unix "/a.sock" = ⟨.Unix ⟨.unixSock, 0⟩ "/a.sock"⟩ ∧
    Docker.host (fun _ => none) (fun _ => none) ⟨some "unix", some "", none, "/a.sock"⟩ =
      .ok ⟨.Unix ⟨.unixSock, usize_max⟩ "/a.sock"⟩ :=
  ⟨(unix_transport_pool_settings "/a.sock" (fun _ => none) (fun _ => none)
      ⟨some "unix", some "", none, "/a.sock"⟩ "").1,
   (unix_transport_pool_settings "/a.sock" (fun _ => none) (fun _ => none)
      ⟨some "unix", some "", none, "/a.sock"⟩ "").2 rfl rfl⟩

/-- C3: evaluation of the key loader at the claim's failing inputs: an
elliptic-curve `key.pem` makes `read_key` panic (and the panic propagates
out of `get_https_connector`) instead of returning a decode error; an empty
`key.pem` panics the same way; a missing `key.pem` is an `io::Error` that
`get_https_connector` turns into a panic via `unwrap`; and a `key.pem`
holding two keys silently yields the first instead of failing. -/
theorem read_key_panic_behaviour :
    read_key fsKeyEc "/certs/key.pem" = .panicked "Not a private key" ∧
    get_https_connector (fun _ => none) fsKeyEc "/certs" = .panicked "Not a private key" ∧
    read_key fsKeyEmpty "/certs/key.pem" = .panicked "Not a private key" ∧
    read_key fsCertOnly "/certs/key.pem" = .ioError "No such file or directory" ∧
    get_https_connector (fun _ => none) fsCertOnly "/certs" =
      .panicked "No such file or directory" ∧
    read_key fsKeyTwo "/certs/key.pem" = .ok 7 :=
  ⟨rfl, rfl, rfl, rfl, rfl, rfl⟩

/-- C5: for every network-scheme target that yields a transport, the
constructed transport is the Tcp or EncryptedTcp variant and the host string
stored on it is the canonical `scheme://host:port` string, with the port
taken from the URL when present and 80 otherwise. -/
theorem host_string_normalization (env : EnvMap) (fs : FsMap) (u : Uri)
    (s h : String) (d : Docker) (hs : u.scheme = some s) (hh : u.host = some h)
    (hne : s ≠ "unix") (hd : Docker.host env fs u = .ok d) :
    (d.transport.isTcp || d.transport.isEncryptedTcp) = true ∧
    d.transport.hostStr =
      some (s ++ "://" ++ h ++ ":" ++ toString (u.port.getD 80)) := by
  unfold Docker.host at hd
  simp only [hs, hh] at hd
  rw [if_neg hne] at hd
  unfold get_docker_for_tcp get_docker_for_tcp_https get_docker_for_tcp_http at hd
  cases hcp : env "DOCKER_CERT_PATH" with
  | none =>
    simp only [hcp] at hd
    injection hd with hd
    subst hd
    exact ⟨rfl, rfl⟩
  | some p =>
    cases hcfg : get_https_connector env fs p with
    | panicked m =>
      simp only [hcp, hcfg] at hd
      exact Outcome.noConfusion hd
    | ok cfg =>
      simp only [hcp, hcfg] at hd
      injection hd with hd
      subst hd
      exact ⟨rfl, rfl⟩

/-- Witness for the C5 theorem at a concrete plain-TCP selection. -/
theorem host_string_normalization_witness :
    ((Transport.Tcp ⟨.http, usize_max⟩ "http://localhost:8000").isTcp ||
      (Transport.Tcp ⟨.http, usize_max⟩ "http://localhost:8000").isEncryptedTcp) = true ∧
    (Transport.Tcp ⟨.http, usize_max⟩ "http://localhost:8000").hostStr =
      some "http://localhost:8000" :=
  host_string_normalization (fun _ => none) (fun _ => none)
    ⟨some "http", some "localhost", some 8000, "/"⟩ "http" "localhost"
    ⟨.Tcp ⟨.http, usize_max⟩ "http://localhost:8000"⟩ rfl rfl (by decide) rfl

/-- C6: for a network-scheme target, when `DOCKER_CERT_PATH` is set and the
TLS material loads from that directory, the constructed transport is the
EncryptedTcp variant carrying the loaded configuration; when the signal is
absent, it is the plain Tcp variant. -/
theorem cert_path_selects_encrypted_tcp (env : EnvMap) (fs : FsMap) (u : Uri)
    (s h p : String) (cfg : TlsClientConfig) (hs : u.scheme = some s)
    (hh : u.host = some h) (hne : s ≠ "unix") :
    (env "DOCKER_CERT_PATH" = some p → get_https_connector env fs p = .ok cfg →
      Docker.host env fs u =
        .ok ⟨.EncryptedTcp (Client.builder.build (.https cfg))
            (s ++ "://" ++ h ++ ":" ++ toString (u.port.getD 80))⟩) ∧
    (env "DOCKER_CERT_PATH" = none →
      Docker.host env fs u =
        .ok ⟨.Tcp (Client.builder.build .http)
            (s ++ "://" ++ h ++ ":" ++ toString (u.port.getD 80))⟩) := by
  constructor
  · intro hcp hcfg
    unfold Docker.host
    simp only [hs, hh]
    rw [if_neg hne]
    unfold get_docker_for_tcp get_docker_for_tcp_https
    simp only [hcp, hcfg]
  · intro hcp
    unfold Docker.host
    simp only [hs, hh]
    rw [if_neg hne]
    unfold get_docker_for_tcp
    simp only [hcp]
    rfl

/-- Witness for the C6 theorem: an environment with `DOCKER_CERT_PATH` set
over a loadable directory yields EncryptedTcp, and one without it yields
Tcp. -/
theorem cert_path_selects_encrypted_tcp_witness :
    Docker.host envCertPath fsCerts uriHttpPort =
      .ok ⟨.EncryptedTcp (Client.builder.build (.https ⟨[], [1], 2⟩))
          "http://localhost:2375"⟩ ∧
    Docker.host (fun _ => none) (fun _ => none) uriHttpNoPort =
      .ok ⟨.Tcp (Client.builder.build .http) "http://localhost:80"⟩ :=
  ⟨(cert_path_selects_encrypted_tcp envCertPath fsCerts uriHttpPort
      "http" "localhost" "/certs" ⟨[], [1], 2⟩ rfl rfl (by decide)).1 rfl rfl,
   (cert_path_selects_encrypted_tcp (fun _ => none) (fun _ => none) uriHttpNoPort
      "http" "localhost" "/certs" ⟨[], [1], 2⟩ rfl rfl (by decide)).2 rfl⟩

/-- C7: evaluation of the trust-root handling: with `DOCKER_TLS_VERIFY` set,
`ca.pem` is genuinely read (its absence panics the construction), but a PEM
certificate bundle — the documented on-disk format — contributes nothing to
the trust root, which stays empty, because the file's raw bytes are offered
to `add_parsable_certificates` as a single DER candidate; only a raw DER
file would be added.  With the signal unset, `ca.pem` is not read at all and
the trust root is left empty. -/
theorem ca_pem_trust_root_evaluation :
    get_https_connector envTlsVerify fsPemCa "/certs" = .ok ⟨[], [3], 4⟩ ∧
    get_https_connector envTlsVerify fsNoCa "/certs" =
      .panicked "No such file or directory" ∧
    get_https_connector (fun _ => none) fsNoCa "/certs" = .ok ⟨[], [3], 4⟩ ∧
    get_https_connector envTlsVerify fsDerCa "/certs" = .ok ⟨[9], [3], 4⟩ :=
  ⟨rfl, rfl, rfl, rfl⟩

/-! ## Structure lemmas for the chunked JSON stream decoder -/

/-- `stream_post_into` is the in-order concatenation of each chunk element's
item list: an error is emitted in place and the flattened stream continues
with the remaining elements. -/
theorem stream_post_into_eq_flatten (chunks : List (Except StreamErr String)) :
    Docker.stream_post_into chunks = (chunks.map chunkItems).flatten := by
  induction chunks with
  | nil => rfl
  | cons c rest ih =>
    cases c with
    | ok chunk =>
      simpa only [Docker.stream_post_into, List.map_cons, tryFlatten,
        List.flatten_cons, chunkItems] using congrArg (chunkDecode chunk ++ ·) ih
    | error e =>
      simpa only [Docker.stream_post_into, List.map_cons, tryFlatten,
        List.flatten_cons, chunkItems] using congrArg (Except.error e :: ·) ih

/-- Consing a decoded value onto a stream tail that has the error-last
property preserves that property. -/
theorem dropLast_ok_cons (fuel : Nat) (v : Json) (r2 : List Char)
    (ih : ((streamLoop fuel r2).dropLast).all isOkItem = true) :
    ((Except.ok v :: streamLoop fuel r2).dropLast).all isOkItem = true := by
  cases hl : streamLoop fuel r2 with
  | nil => rfl
  | cons a l =>
    rw [List.dropLast_cons₂, List.all_cons]
    rw [hl] at ih
    rw [ih]
    rfl

/-- Every item the stream deserializer yields before its last one is a
decoded value: it stops at its first parse or end-of-value error. -/
theorem streamLoop_dropLast_ok (fuel : Nat) :
    ∀ cs : List Char, ((streamLoop fuel cs).dropLast).all isOkItem = true := by
  induction fuel with
  | zero => intro cs; rfl
  | succ fuel ih =>
    intro cs
    unfold streamLoop
    split
    · rfl
    · split
      · rename_i v r2 _hp
        split
        · exact dropLast_ok_cons fuel v r2 (ih r2)
        · split
          · exact dropLast_ok_cons fuel v r2 (ih r2)
          · split
            · exact dropLast_ok_cons fuel v r2 (ih r2)
            · rfl
      · rfl

/-- The error-type translation of one chunk's items preserves which items
are decoded values. -/
theorem all_ok_map_serde {l : List (Except String Json)}
    (h : l.all isOkItem = true) :
    (l.map fun r =>
      match r with
      | .ok v => (Except.ok v : Except StreamErr Json)
      | .error e => .error (.serdeJson e)).all isOkItem = true := by
  induction l with
  | nil => rfl
  | cons a l ih =>
    rw [List.all_cons] at h
    cases a with
    | ok v =>
      rw [List.map_cons, List.all_cons]
      have := ih (by simpa [isOkItem] using h)
      rw [this]
      rfl
    | error e => simp [isOkItem] at h

/-- Within one chunk's decoded items, only the last can be an error. -/
theorem chunkDecode_dropLast_ok (chunk : String) :
    ((chunkDecode chunk).dropLast).all isOkItem = true := by
  unfold chunkDecode serdeStreamDecode
  rw [← List.map_dropLast]
  exact all_ok_map_serde (streamLoop_dropLast_ok _ chunk.data)

/-! ## Claim theorems: the chunked JSON stream decoder -/

/-- C4 counterexample: a decode error on the first chunk is followed by a
successfully decoded value coming from the next chunk, so the produced
stream neither ends at the error nor has it as its last item. -/
theorem stream_decode_error_not_terminal :
    Docker.stream_post_into [.ok "\x7b\"a\":", .ok "\x7b\"b\":2\x7d"] =
      [.error (.serdeJson "EOF while parsing a value"), .ok (.jobj [("b", .jnum 2)])] ∧
    (Docker.stream_post_into [.ok "\x7b\"a\":", .ok "\x7b\"b\":2\x7d"]).getLast? =
      some (.ok (.jobj [("b", .jnum 2)])) :=
  ⟨rfl, rfl⟩

/-- C4 (amended): a decode error terminates decoding of the chunk it occurs
in — within one chunk's item list every item before the last is a decoded
value, so nothing of that chunk after the error is emitted — but the
produced stream is the in-order concatenation of the per-chunk item lists,
so it continues with the items of subsequent chunks; concretely, a chunk
holding one good document and one truncated document contributes the value
and then the error, and a following chunk still contributes its value. -/
theorem stream_decode_error_scoped_to_chunk :
    (∀ chunks, Docker.stream_post_into chunks = (chunks.map chunkItems).flatten) ∧
    (∀ chunk : String, ((chunkDecode chunk).dropLast).all isOkItem = true) ∧
    Docker.stream_post_into [.ok "\x7b\"a\":1\x7d\x7b\"x\"", .ok "true"] =
      [.ok (.jobj [("a", .jnum 1)]), .error (.serdeJson "EOF while parsing an object"),
       .ok (.jbool true)] :=
  ⟨stream_post_into_eq_flatten, chunkDecode_dropLast_ok, rfl⟩

/-! ## Structure lemmas for the line decoder -/

/-- Unfolding equation: a newline heads its own completed line. -/
theorem completeLines_cons_newline (cs : List Char) :
    completeLines ('\n' :: cs) = (['\n'] :: (completeLines cs).1, (completeLines cs).2) := rfl

/-- Unfolding equation: any other character prepends to the first completed
line when there is one, and to the unterminated remainder otherwise. -/
theorem completeLines_cons_other (c : Char) (cs : List Char) (hc : c ≠ '\n') :
    completeLines (c :: cs) =
      match completeLines cs with
      | ([], r) => ([], c :: r)
      | (l :: ls, r) => ((c :: l) :: ls, r) := by
  simp only [completeLines]
  rw [if_neg hc]

/-- The unterminated remainder contains no newline. -/
theorem completeLines_snd_no_newline :
    ∀ buf : List Char, ((completeLines buf).2).all (· != '\n') = true := by
  intro buf
  induction buf with
  | nil => rfl
  | cons c cs ih =>
    by_cases hc : c = '\n'
    · subst hc
      rw [completeLines_cons_newline]
      exact ih
    · rw [completeLines_cons_other c cs hc]
      cases hsplit : completeLines cs with
      | mk ls r =>
        rw [hsplit] at ih
        cases ls with
        | nil =>
          show ((c :: r).all (· != '\n')) = true
          rw [List.all_cons]
          have hb : (c != '\n') = true := by simp [bne_iff_ne, hc]
          rw [hb]
          exact ih
        | cons l ls2 =>
          exact ih

/-- A buffer without newlines has no completed line and is its own
remainder. -/
theorem completeLines_no_newline :
    ∀ buf : List Char, buf.all (· != '\n') = true → completeLines buf = ([], buf) := by
  intro buf
  induction buf with
  | nil => intro _; rfl
  | cons c cs ih =>
    intro h
    rw [List.all_cons, Bool.and_eq_true] at h
    obtain ⟨h1, h2⟩ := h
    have hc : c ≠ '\n' := by simpa [bne_iff_ne] using h1
    rw [completeLines_cons_other c cs hc, ih h2]

/-- Splitting a concatenation into lines: the completed lines of `a ++ b`
are those of `a` followed by those of `a`'s remainder glued to `b`. -/
theorem completeLines_append :
    ∀ a b : List Char,
      completeLines (a ++ b) =
        ((completeLines a).1 ++ (completeLines ((completeLines a).2 ++ b)).1,
         (completeLines ((completeLines a).2 ++ b)).2) := by
  intro a
  induction a with
  | nil => intro b; rfl
  | cons c a2 ih =>
    intro b
    rw [List.cons_append]
    by_cases hc : c = '\n'
    · subst hc
      rw [completeLines_cons_newline, completeLines_cons_newline, ih b]
      rfl
    · rw [completeLines_cons_other c (a2 ++ b) hc, completeLines_cons_other c a2 hc, ih b]
      cases hsplit : completeLines a2 with
      | mk ls r =>
        cases ls with
        | nil =>
          cases hY : completeLines (r ++ b) with
          | mk ys s =>
            cases ys with
            | nil =>
              show (([] : List (List Char)), c :: s) =
                ((completeLines (c :: (r ++ b))).1, (completeLines (c :: (r ++ b))).2)
              rw [completeLines_cons_other c (r ++ b) hc, hY]
            | cons y ys2 =>
              show ((c :: y) :: ys2, s) =
                ((completeLines (c :: (r ++ b))).1, (completeLines (c :: (r ++ b))).2)
              rw [completeLines_cons_other c (r ++ b) hc, hY]
        | cons l ls2 =>
          rfl

/-- The emitted lines of the framed reader depend only on the concatenation
of the arriving chunks: partial lines are buffered across chunk
boundaries. -/
theorem framedReadLines_concat :
    ∀ (chunks : List String) (buf : List Char), (completeLines buf).1 = [] →
      framedReadLines buf chunks =
        ((completeLines (buf ++ flatChunks chunks)).1).map String.mk := by
  intro chunks
  induction chunks with
  | nil =>
    intro buf h
    show ([] : List String) = _
    rw [show flatChunks [] = [] from rfl, List.append_nil, h]
    rfl
  | cons ch rest ih =>
    intro buf h
    have hsnd : ((completeLines (buf ++ ch.data)).2).all (· != '\n') = true :=
      completeLines_snd_no_newline _
    have hfst : (completeLines ((completeLines (buf ++ ch.data)).2)).1 = [] := by
      rw [completeLines_no_newline _ hsnd]
    unfold framedReadLines
    cases hsplit : completeLines (buf ++ ch.data) with
    | mk ls buf2 =>
      rw [hsplit] at hfst
      show ls.map String.mk ++ framedReadLines buf2 rest = _
      rw [ih buf2 hfst]
      show _ = (completeLines (buf ++ (ch.data ++ flatChunks rest))).1.map String.mk
      rw [← List.append_assoc, completeLines_append (buf ++ ch.data) (flatChunks rest),
        hsplit]
      show ls.map String.mk ++ (completeLines (buf2 ++ flatChunks rest)).1.map String.mk =
        (ls ++ (completeLines (buf2 ++ flatChunks rest)).1).map String.mk
      rw [List.map_append]

/-! ## Claim theorems: the line stream decoder -/

/-- C9 counterexample: fed the spec's two chunks, the event feed emits
exactly two items, but both are decode errors — the demo lines are valid
JSON yet lack the fields of the `Event` structure `Docker::events`
deserializes into — so it does not emit two decoded values. -/
theorem events_demo_two_errors :
    Docker.events [demoChunk1, demoChunk2] =
      [.error (.serdeJson "missing field Type"),
       .error (.serdeJson "missing field Type")] ∧
    (Docker.events [demoChunk1, demoChunk2]).all (fun i => !(isOkItem i)) = true :=
  ⟨rfl, rfl⟩

/-- C9 (amended): the line decoder buffers partial lines across chunk
boundaries — the emitted lines depend only on the concatenation of the
chunks — and emits one item per completed newline-terminated line.  Fed the
chunks of the spec's example it emits exactly two items, one per line; since
`Docker::events` deserializes each line into the `Event` structure, those
demo lines yield two decode errors, while two complete Event documents with
the second line split across the chunk boundary yield two decoded events. -/
theorem events_line_buffering :
    (∀ chunks, framedReadLines [] chunks =
      ((completeLines (flatChunks chunks)).1).map String.mk) ∧
    framedReadLines [] [demoChunk1, demoChunk2] =
      ["\x7b\"a\":1\x7d\n", "\x7b\"b\":2\x7d\n"] ∧
    (Docker.events [demoChunk1, demoChunk2]).length = 2 ∧
    Docker.events [eventChunk1, eventChunk2] = [.ok eventOne, .ok eventTwo] :=
  ⟨fun chunks => framedReadLines_concat chunks [] rfl, rfl, rfl, rfl⟩

/-! ## Roundtrip support: digits, strings, literals -/

/-- Digit folding distributes over append. -/
theorem natFromDigitsAux_append (xs ys : List Char) :
    ∀ acc, natFromDigitsAux acc (xs ++ ys) = natFromDigitsAux (natFromDigitsAux acc xs) ys := by
  induction xs with
  | nil => intro acc; rfl
  | cons c xs ih => intro acc; exact ih _

/-- A digit character is recognized as one. -/
theorem digitChar_isDigit (d : Nat) (h : d < 10) : isDigitC (Char.ofNat (48 + d)) = true := by
  interval_cases d <;> rfl

/-- A digit character decodes to its digit. -/
theorem digitChar_val (d : Nat) (h : d < 10) : digitVal (Char.ofNat (48 + d)) = d := by
  interval_cases d <;> rfl

/-- The digit string of a natural number is nonempty. -/
theorem natDigits_ne_nil (n : Nat) : natDigits n ≠ [] := by
  unfold natDigits
  split
  · simp
  · simp

/-- Every character of a digit string is a digit. -/
theorem natDigits_all_digit (n : Nat) : (natDigits n).all isDigitC = true := by
  induction n using Nat.strong_induction_on with
  | _ n ih =>
    unfold natDigits
    split
    · rename_i h
      simp [digitChar_isDigit n h]
    · rename_i h
      rw [List.all_append]
      rw [ih (n / 10) (Nat.div_lt_self (by omega) (by omega))]
      simp [digitChar_isDigit (n % 10) (Nat.mod_lt _ (by omega))]

/-- The digit string of a natural number folds back to it. -/
theorem natDigits_val (n : Nat) : natFromDigitsAux 0 (natDigits n) = n := by
  induction n using Nat.strong_induction_on with
  | _ n ih =>
    unfold natDigits
    split
    · rename_i h
      show 0 * 10 + digitVal (Char.ofNat (48 + n)) = n
      rw [digitChar_val n h]
      omega
    · rename_i h
      rw [natFromDigitsAux_append, ih (n / 10) (Nat.div_lt_self (by omega) (by omega))]
      show (n / 10) * 10 + digitVal (Char.ofNat (48 + n % 10)) = n
      rw [digitChar_val (n % 10) (Nat.mod_lt _ (by omega))]
      omega

/-- `takeWhile`/`dropWhile` split an append exactly at a satisfied prefix
followed by a failing head. -/
theorem takeWhile_all_append (p : Char → Bool) :
    ∀ (l r : List Char), l.all p = true →
      (match r.head? with | some c => p c = false | none => True) →
      (l ++ r).takeWhile p = l ∧ (l ++ r).dropWhile p = r := by
  intro l
  induction l with
  | nil =>
    intro r _ hr
    cases r with
    | nil => exact ⟨rfl, rfl⟩
    | cons c t =>
      refine ⟨?_, ?_⟩
      · show (c :: t).takeWhile p = []
        rw [List.takeWhile_cons, hr]
        rfl
      · show (c :: t).dropWhile p = c :: t
        rw [List.dropWhile_cons, hr]
        rfl
  | cons a l ih =>
    intro r hall hr
    rw [List.all_cons, Bool.and_eq_true] at hall
    obtain ⟨ha, hl⟩ := hall
    obtain ⟨ht, hd⟩ := ih r hl hr
    refine ⟨?_, ?_⟩
    · show ((a :: (l ++ r)).takeWhile p) = a :: l
      rw [List.takeWhile_cons, ha, ht]
      rfl
    · show ((a :: (l ++ r)).dropWhile p) = r
      rw [List.dropWhile_cons, ha, hd]
      rfl

/-- A digit is not JSON whitespace. -/
theorem not_ws_of_digit (c : Char) (h : isDigitC c = true) : isWsChar c = false := by
  simp only [isDigitC, Bool.and_eq_true, decide_eq_true_eq] at h
  simp only [isWsChar, Bool.or_eq_false_iff, decide_eq_false_iff_not]
  omega

/-- A character passing the end-of-value check can neither extend a number
nor open a float continuation. -/
theorem num_delim_of_endOfValueOk (c : Char) (h : endOfValueOk c = true) :
    isDigitC c = false ∧ c ≠ '.' ∧ c ≠ 'e' ∧ c ≠ 'E' := by
  simp only [endOfValueOk, isWsChar, Bool.or_eq_true, decide_eq_true_eq] at h
  have hn : c.toNat = 32 ∨ c.toNat = 9 ∨ c.toNat = 10 ∨ c.toNat = 13 ∨
      c = '"' ∨ c = '[' ∨ c = ']' ∨ c = lbrace ∨ c = rbrace ∨ c = ',' ∨ c = ':' := by
    tauto
  rcases hn with h1 | h1 | h1 | h1 | h1 | h1 | h1 | h1 | h1 | h1 | h1
  all_goals first
    | (subst h1; exact ⟨by decide, by decide, by decide, by decide⟩)
    | (refine ⟨by simp [isDigitC, h1], ?_, ?_, ?_⟩ <;> intro he <;> subst he <;>
        exact absurd h1 (by decide))

/-- A digit does not open a self-delineating document. -/
theorem not_self_delim_of_digit (c : Char) (h : isDigitC c = true) :
    selfDelineating c = false := by
  by_cases hs : selfDelineating c = true
  · exfalso
    simp only [selfDelineating, Bool.or_eq_true, decide_eq_true_eq] at hs
    have hn : c = '"' ∨ c = '[' ∨ c = lbrace := by tauto
    rcases hn with h1 | h1 | h1 <;> subst h1 <;> exact absurd h (by decide)
  · simpa using hs

/-- `skipWs` keeps a buffer whose head is not whitespace. -/
theorem skipWs_cons_not_ws (c : Char) (cs : List Char) (h : isWsChar c = false) :
    skipWs (c :: cs) = c :: cs := by
  simp [skipWs, h]

/-- A clean string body parses back to itself, consuming the closing
quote. -/
theorem parseStringBody_roundtrip :
    ∀ (l acc rest : List Char), l.all plainChar = true →
      parseStringBody (l ++ '"' :: rest) acc =
        some (String.mk (acc.reverse ++ l), rest) := by
  intro l
  induction l with
  | nil =>
    intro acc rest _
    show parseStringBody ('"' :: rest) acc = _
    unfold parseStringBody
    rw [if_pos rfl, List.append_nil]
  | cons c l ih =>
    intro acc rest h
    rw [List.all_cons, Bool.and_eq_true] at h
    obtain ⟨hc, hl⟩ := h
    simp only [plainChar, Bool.and_eq_true, bne_iff_ne, ne_eq] at hc
    show parseStringBody (c :: (l ++ '"' :: rest)) acc = _
    unfold parseStringBody
    rw [if_neg hc.1, if_neg hc.2, ih (c :: acc) rest hl]
    simp [List.reverse_cons, List.append_assoc]

/-- A literal at the head of the input is consumed exactly. -/
theorem expectLit_append (lit rest : List Char) (v : Json) :
    expectLit lit (lit ++ rest) v = .ok (v, rest) := by
  unfold expectLit
  rw [List.take_left, List.drop_left, if_pos rfl]

/-- The stream loop yields nothing on an exhausted input. -/
theorem streamLoop_nil (fuel : Nat) : streamLoop fuel [] = [] := by
  cases fuel <;> rfl

/-- Every document may end the input. -/
theorem delimOkB_nil (v : Json) : delimOkB v [] = true := by
  cases v <;> rfl

/-- A head character that passes the end-of-value check is a valid delimiter
after any document. -/
theorem delimOkB_cons (v : Json) (c : Char) (t : List Char)
    (h : endOfValueOk c = true) :
    delimOkB v (c :: t) = true := by
  cases v <;> simp [delimOkB, isSelfDelimJson, h]

/-- Every JSON value has positive size. -/
theorem jsize_pos (v : Json) : 1 ≤ jsize v := by
  cases v <;> simp [jsize]

/-! ## Roundtrip support: head characters and sizes -/

/-- A serialized value starts with a non-whitespace character that is not a
closing delimiter, and that character is self-delineating exactly for
strings, arrays and objects. -/
theorem printJson_head (v : Json) :
    ∃ c t, printJson v = c :: t ∧ isWsChar c = false ∧ c ≠ ']' ∧ c ≠ rbrace ∧
      selfDelineating c = isSelfDelimJson v := by
  cases v with
  | jnull => exact ⟨'n', _, rfl, by decide, by decide, by decide, rfl⟩
  | jbool b =>
    cases b with
    | false => exact ⟨'f', _, rfl, by decide, by decide, by decide, rfl⟩
    | true => exact ⟨'t', _, rfl, by decide, by decide, by decide, rfl⟩
  | jnum n =>
    simp only [printJson, printInt]
    by_cases hn : n < 0
    · rw [if_pos hn]
      exact ⟨'-', _, rfl, by decide, by decide, by decide, rfl⟩
    · rw [if_neg hn]
      cases hnd : natDigits n.natAbs with
      | nil => exact absurd hnd (natDigits_ne_nil _)
      | cons c t =>
        have hall := natDigits_all_digit n.natAbs
        rw [hnd, List.all_cons, Bool.and_eq_true] at hall
        refine ⟨c, t, rfl, not_ws_of_digit c hall.1, ?_, ?_, ?_⟩
        · intro he; subst he; exact absurd hall.1 (by decide)
        · intro he; subst he; exact absurd hall.1 (by decide)
        · rw [not_self_delim_of_digit c hall.1]
          rfl
  | jstr s => exact ⟨'"', _, rfl, by decide, by decide, by decide, rfl⟩
  | jarr xs =>
    cases xs with
    | nil => exact ⟨'[', _, rfl, by decide, by decide, by decide, rfl⟩
    | cons x xs => exact ⟨'[', _, rfl, by decide, by decide, by decide, rfl⟩
  | jobj kvs =>
    cases kvs with
    | nil => exact ⟨lbrace, _, rfl, by decide, by decide, by decide, rfl⟩
    | cons kv kvs => exact ⟨lbrace, _, rfl, by decide, by decide, by decide, rfl⟩

/-- `skipWs` does not consume a serialized value. -/
theorem skipWs_print_append (v : Json) (rest : List Char) :
    skipWs (printJson v ++ rest) = printJson v ++ rest := by
  obtain ⟨c, t, hv, hw, -, -, -⟩ := printJson_head v
  rw [hv, List.cons_append]
  exact skipWs_cons_not_ws c (t ++ rest) hw

/-- A serialized value does not start with `]`. -/
theorem print_head_ne_bracket (v : Json) (rest : List Char) :
    ¬ (printJson v ++ rest).head? = some ']' := by
  obtain ⟨c, t, hv, -, h1, -, -⟩ := printJson_head v
  rw [hv, List.cons_append]
  simp [h1]

/-- A serialized value does not start with a closing brace. -/
theorem print_head_ne_brace (v : Json) (rest : List Char) :
    ¬ (printJson v ++ rest).head? = some rbrace := by
  obtain ⟨c, t, hv, -, -, h2, -⟩ := printJson_head v
  rw [hv, List.cons_append]
  simp [h2]

/-- A serialized natural number parses back, provided the following
character cannot extend it. -/
theorem parseIntAfterSign_digits (neg : Bool) (m : Nat) (rest : List Char)
    (hr : ∀ c, rest.head? = some c →
      isDigitC c = false ∧ c ≠ '.' ∧ c ≠ 'e' ∧ c ≠ 'E') :
    parseIntAfterSign neg (natDigits m ++ rest) =
      .ok (.jnum (if neg then -(Int.ofNat m) else Int.ofNat m), rest) := by
  have hr1 : match rest.head? with
      | some c => isDigitC c = false
      | none => True := by
    cases hh : rest.head? with
    | none => trivial
    | some c => exact (hr c hh).1
  obtain ⟨ht, hd⟩ := takeWhile_all_append isDigitC (natDigits m) rest
    (natDigits_all_digit m) hr1
  have hcond : ¬ (rest.head? = some '.' ∨ rest.head? = some 'e' ∨
      rest.head? = some 'E') := by
    intro hor
    rcases hor with h | h | h
    · exact absurd rfl (hr '.' h).2.1
    · exact absurd rfl (hr 'e' h).2.2.1
    · exact absurd rfl (hr 'E' h).2.2.2
  simp only [parseIntAfterSign]
  rw [ht, hd, if_neg (natDigits_ne_nil m), if_neg hcond, natDigits_val m]

/-- Entry equation of the parser on an opening bracket. -/
theorem parseValue_bracket (fuel : Nat) (cs : List Char) :
    parseValue (fuel + 1) ('[' :: cs) =
      if (skipWs cs).head? = some ']' then .ok (.jarr [], (skipWs cs).tail)
      else
        match parseArrElems fuel (skipWs cs) with
        | .ok (vs, r) => .ok (.jarr vs, r)
        | .error e => .error e := rfl

/-- Entry equation of the parser on an opening brace. -/
theorem parseValue_brace (fuel : Nat) (cs : List Char) :
    parseValue (fuel + 1) (lbrace :: cs) =
      if (skipWs cs).head? = some rbrace then .ok (.jobj [], (skipWs cs).tail)
      else
        match parseObjElems fuel (skipWs cs) with
        | .ok (kvs, r) => .ok (.jobj kvs, r)
        | .error e => .error e := rfl

/-- Entry equation of the parser on a digit. -/
theorem parseValue_digit_entry (fuel : Nat) (c : Char) (cs : List Char)
    (h : isDigitC c = true) :
    parseValue (fuel + 1) (c :: cs) = parseIntAfterSign false (c :: cs) := by
  have hw := not_ws_of_digit c h
  have hn : c ≠ 'n' := by intro he; subst he; exact absurd h (by decide)
  have ht : c ≠ 't' := by intro he; subst he; exact absurd h (by decide)
  have hf : c ≠ 'f' := by intro he; subst he; exact absurd h (by decide)
  have hq : c ≠ '"' := by intro he; subst he; exact absurd h (by decide)
  have hm : c ≠ '-' := by intro he; subst he; exact absurd h (by decide)
  simp [parseValue, skipWs, hw, hn, ht, hf, hq, hm, h]

/-- The structural size of a value is at most the length of its serialized
form (stated with a fuel bound to drive the nested induction). -/
theorem jsize_le_print :
    ∀ n : Nat,
      (∀ v : Json, jsize v ≤ n → jsize v ≤ (printJson v).length) ∧
      (∀ xs : List Json, jsizeList xs ≤ n → jsizeList xs ≤ (printJsonTail xs).length) ∧
      (∀ kvs : List (String × Json), jsizeFields kvs ≤ n →
        jsizeFields kvs ≤ (printFieldTail kvs).length) := by
  intro n
  induction n with
  | zero =>
    refine ⟨fun v hv => ?_, fun xs hxs => ?_, fun kvs hkvs => ?_⟩
    · have := jsize_pos v; omega
    · cases xs with
      | nil => simp [jsizeList]
      | cons x xs => simp [jsizeList] at hxs
    · cases kvs with
      | nil => simp [jsizeFields]
      | cons kv kvs =>
        obtain ⟨k, v⟩ := kv
        simp [jsizeFields] at hkvs
  | succ n ih =>
    obtain ⟨ih1, ih2, ih3⟩ := ih
    refine ⟨fun v hv => ?_, fun xs hxs => ?_, fun kvs hkvs => ?_⟩
    · cases v with
      | jnull => simp [jsize, printJson]
      | jbool b => cases b <;> simp [jsize, printJson]
      | jnum m =>
        have hlen : 0 < (printInt m).length := by
          simp only [printInt]
          split
          · simp
          · exact List.length_pos.mpr (natDigits_ne_nil _)
        simp only [jsize, printJson]
        omega
      | jstr s =>
        simp [jsize, printJson]
      | jarr xs =>
        cases xs with
        | nil => simp [jsize, jsizeList, printJson]
        | cons x xs2 =>
          have hx : jsizeList (x :: xs2) ≤ n := by
            simp only [jsize] at hv; omega
          have hb := ih2 (x :: xs2) hx
          simp only [jsize, printJson, jsizeList, printJsonTail,
            List.length_append, List.length_cons] at hb ⊢
          omega
      | jobj kvs =>
        cases kvs with
        | nil => simp [jsize, jsizeFields, printJson]
        | cons kv kvs2 =>
          obtain ⟨k, v⟩ := kv
          have hx : jsizeFields ((k, v) :: kvs2) ≤ n := by
            simp only [jsize] at hv; omega
          have hb := ih3 _ hx
          simp only [jsize, printJson, jsizeFields, printFieldTail, printField,
            List.length_append, List.length_cons] at hb ⊢
          omega
    · cases xs with
      | nil => simp [jsizeList]
      | cons x xs2 =>
        have h1 : jsize x ≤ n := by simp only [jsizeList] at hxs; omega
        have h2 : jsizeList xs2 ≤ n := by
          have := jsize_pos x
          simp only [jsizeList] at hxs; omega
        have e1 := ih1 x h1
        have e2 := ih2 xs2 h2
        simp only [jsizeList, printJsonTail, List.length_append, List.length_cons]
        omega
    · cases kvs with
      | nil => simp [jsizeFields]
      | cons kv kvs2 =>
        obtain ⟨k, v⟩ := kv
        have h1 : jsize v ≤ n := by simp only [jsizeFields] at hkvs; omega
        have h2 : jsizeFields kvs2 ≤ n := by
          have := jsize_pos v
          simp only [jsizeFields] at hkvs; omega
        have e1 := ih1 v h1
        have e2 := ih3 kvs2 h2
        simp only [jsizeFields, printFieldTail, printField, List.length_append,
          List.length_cons]
        omega

/-- Size bound used to discharge the parser's fuel requirement. -/
theorem jsize_le_printJson (v : Json) : jsize v ≤ (printJson v).length :=
  (jsize_le_print (jsize v)).1 v le_rfl

/-! ## The parse/print roundtrip -/

/-- Entry equation of the member parser on an opening quote. -/
theorem parseObjElems_quote (fuel : Nat) (cs : List Char) :
    parseObjElems (fuel + 1) ('"' :: cs) =
      match parseStringBody cs [] with
      | none => .error "unterminated or escaped string"
      | some (k, r2) =>
        match skipWs r2 with
        | [] => .error "EOF while parsing an object"
        | c2 :: r3 =>
          if c2 = ':' then
            match parseValue fuel r3 with
            | .error e => .error e
            | .ok (v, r4) =>
              match skipWs r4 with
              | [] => .error "EOF while parsing an object"
              | c3 :: r5 =>
                if c3 = ',' then
                  match parseObjElems fuel r5 with
                  | .ok (kvs, r6) => .ok ((k, v) :: kvs, r6)
                  | .error e => .error e
                else if c3 = rbrace then .ok ([(k, v)], r5)
                else .error "expected comma or brace"
          else .error "expected colon" := rfl

/-- Serialized well-formed values parse back to themselves, with the rest of
the input untouched; arrays and objects recurse through their element and
member parsers. -/
theorem parse_print_roundtrip :
    ∀ fuel : Nat,
      (∀ (v : Json) (rest : List Char), wfJson v = true → jsize v < fuel →
        delimOkB v rest = true →
        parseValue fuel (printJson v ++ rest) = .ok (v, rest)) ∧
      (∀ (x : Json) (xs : List Json) (rest : List Char),
        wfJson x = true → wfJsonList xs = true → jsizeList (x :: xs) < fuel →
        parseArrElems fuel (printJson x ++ (printJsonTail xs ++ ']' :: rest)) =
          .ok (x :: xs, rest)) ∧
      (∀ (k : String) (v : Json) (kvs : List (String × Json)) (rest : List Char),
        k.data.all plainChar = true → wfJson v = true → wfJsonFields kvs = true →
        jsizeFields ((k, v) :: kvs) < fuel →
        parseObjElems fuel (printField (k, v) ++ (printFieldTail kvs ++ rbrace :: rest)) =
          .ok ((k, v) :: kvs, rest)) := by
  intro fuel
  induction fuel with
  | zero =>
    exact ⟨fun v rest _ hs _ => absurd hs (Nat.not_lt_zero _),
      fun x xs rest _ _ hs => absurd hs (Nat.not_lt_zero _),
      fun k v kvs rest _ _ _ hs => absurd hs (Nat.not_lt_zero _)⟩
  | succ fuel ih =>
    obtain ⟨ihV, ihA, ihO⟩ := ih
    refine ⟨?_, ?_, ?_⟩
    · intro v rest hwf hsz hdl
      cases v with
      | jnull => exact expectLit_append ['u', 'l', 'l'] rest .jnull
      | jbool b =>
        cases b with
        | false => exact expectLit_append ['a', 'l', 's', 'e'] rest (.jbool false)
        | true => exact expectLit_append ['r', 'u', 'e'] rest (.jbool true)
      | jnum m =>
        have hr : ∀ c, rest.head? = some c →
            isDigitC c = false ∧ c ≠ '.' ∧ c ≠ 'e' ∧ c ≠ 'E' := by
          intro c hh
          simp only [delimOkB, isSelfDelimJson, Bool.false_eq_true, if_false,
            hh] at hdl
          exact num_delim_of_endOfValueOk c hdl
        by_cases hm : m < 0
        · have hprint : printJson (.jnum m) ++ rest =
              '-' :: (natDigits m.natAbs ++ rest) := by
            simp [printJson, printInt, hm]
          rw [hprint]
          show parseIntAfterSign true (natDigits m.natAbs ++ rest) = .ok (.jnum m, rest)
          rw [parseIntAfterSign_digits true m.natAbs rest hr]
          have h2 : (if (true : Bool) then -(Int.ofNat m.natAbs)
              else Int.ofNat m.natAbs) = m := by
            simp only [if_true, Int.ofNat_eq_natCast]
            omega
          rw [h2]
        · have hprint : printJson (.jnum m) ++ rest = natDigits m.natAbs ++ rest := by
            simp [printJson, printInt, hm]
          rw [hprint]
          cases hnd : natDigits m.natAbs with
          | nil => exact absurd hnd (natDigits_ne_nil _)
          | cons c t =>
            have hall := natDigits_all_digit m.natAbs
            rw [hnd, List.all_cons, Bool.and_eq_true] at hall
            rw [List.cons_append, parseValue_digit_entry fuel c (t ++ rest) hall.1]
            rw [show c :: (t ++ rest) = natDigits m.natAbs ++ rest by
              rw [hnd, List.cons_append]]
            rw [parseIntAfterSign_digits false m.natAbs rest hr]
            have h2 : (if (false : Bool) then -(Int.ofNat m.natAbs)
                else Int.ofNat m.natAbs) = m := by
              show Int.ofNat m.natAbs = m
              simp only [Int.ofNat_eq_natCast]
              omega
            rw [h2]
      | jstr s =>
        have hplain : s.data.all plainChar = true := by simpa [wfJson] using hwf
        have hprint : printJson (.jstr s) ++ rest = '"' :: (s.data ++ '"' :: rest) := by
          simp [printJson]
        rw [hprint]
        show (match parseStringBody (s.data ++ '"' :: rest) [] with
          | some (s, r) => Except.ok (Json.jstr s, r)
          | none => Except.error "unterminated or escaped string") = .ok (.jstr s, rest)
        rw [parseStringBody_roundtrip s.data [] rest hplain]
        rfl
      | jarr xs =>
        cases xs with
        | nil => rfl
        | cons x xs2 =>
          have hw12 : wfJson x = true ∧ wfJsonList xs2 = true := by
            simpa [wfJson, wfJsonList, Bool.and_eq_true] using hwf
          have hsz2 : jsizeList (x :: xs2) < fuel := by
            simp only [jsize] at hsz; omega
          have hprint : printJson (.jarr (x :: xs2)) ++ rest =
              '[' :: (printJson x ++ (printJsonTail xs2 ++ ']' :: rest)) := by
            simp [printJson, List.append_assoc]
          rw [hprint, parseValue_bracket,
            skipWs_print_append x (printJsonTail xs2 ++ ']' :: rest),
            if_neg (print_head_ne_bracket x (printJsonTail xs2 ++ ']' :: rest)),
            ihA x xs2 rest hw12.1 hw12.2 hsz2]
      | jobj kvs =>
        cases kvs with
        | nil => rfl
        | cons kv kvs2 =>
          obtain ⟨k, v⟩ := kv
          have hps : k.data.all plainChar = true ∧ wfJson v = true ∧
              wfJsonFields kvs2 = true := by
            simpa [wfJson, wfJsonFields, Bool.and_eq_true, and_assoc] using hwf
          have hsz2 : jsizeFields ((k, v) :: kvs2) < fuel := by
            simp only [jsize] at hsz; omega
          have hprint : printJson (.jobj ((k, v) :: kvs2)) ++ rest =
              lbrace :: (printField (k, v) ++ (printFieldTail kvs2 ++ rbrace :: rest)) := by
            simp [printJson, List.append_assoc]
          have hskip : skipWs (printField (k, v) ++ (printFieldTail kvs2 ++ rbrace :: rest)) =
              printField (k, v) ++ (printFieldTail kvs2 ++ rbrace :: rest) :=
            skipWs_cons_not_ws '"'
              ((k.data ++ ('"' :: ':' :: printJson v)) ++
                (printFieldTail kvs2 ++ rbrace :: rest)) (by decide)
          have hne : ¬ (printField (k, v) ++
              (printFieldTail kvs2 ++ rbrace :: rest)).head? = some rbrace := by
            show ¬ ('"' :: ((k.data ++ ('"' :: ':' :: printJson v)) ++
              (printFieldTail kvs2 ++ rbrace :: rest))).head? = some rbrace
            simp
            decide
          rw [hprint, parseValue_brace, hskip, if_neg hne,
            ihO k v kvs2 rest hps.1 hps.2.1 hps.2.2 hsz2]
    · intro x xs rest hwx hwxs hsz
      have hszx : jsize x < fuel := by
        simp only [jsizeList] at hsz
        omega
      have hdl : delimOkB x (printJsonTail xs ++ ']' :: rest) = true := by
        cases xs with
        | nil =>
          exact delimOkB_cons x ']' rest (by decide)
        | cons y ys =>
          exact delimOkB_cons x ',' _ (by decide)
      simp only [parseArrElems]
      rw [ihV x (printJsonTail xs ++ ']' :: rest) hwx hszx hdl]
      cases xs with
      | nil => rfl
      | cons y ys =>
        have hwy : wfJson y = true ∧ wfJsonList ys = true := by
          simpa [wfJsonList, Bool.and_eq_true] using hwxs
        have hszy : jsizeList (y :: ys) < fuel := by
          have := jsize_pos x
          simp only [jsizeList] at hsz ⊢
          omega
        show (match parseArrElems fuel ((printJson y ++ printJsonTail ys) ++ ']' :: rest) with
          | .ok (vs, r3) => Except.ok (x :: vs, r3)
          | .error e => Except.error e) = .ok (x :: y :: ys, rest)
        rw [List.append_assoc, ihA y ys rest hwy.1 hwy.2 hszy]
    · intro k v kvs rest hk hwv hwkvs hsz
      have hszv : jsize v < fuel := by
        simp only [jsizeFields] at hsz
        omega
      have hdl : delimOkB v (printFieldTail kvs ++ rbrace :: rest) = true := by
        cases kvs with
        | nil =>
          exact delimOkB_cons v rbrace rest (by decide)
        | cons kv2 kvs2 =>
          exact delimOkB_cons v ',' _ (by decide)
      have hprint : printField (k, v) ++ (printFieldTail kvs ++ rbrace :: rest) =
          '"' :: (k.data ++ '"' :: ':' :: (printJson v ++
            (printFieldTail kvs ++ rbrace :: rest))) := by
        simp [printField, List.append_assoc]
      rw [hprint, parseObjElems_quote,
        parseStringBody_roundtrip k.data []
          (':' :: (printJson v ++ (printFieldTail kvs ++ rbrace :: rest))) hk]
      show (match parseValue fuel (printJson v ++ (printFieldTail kvs ++ rbrace :: rest)) with
        | .error e => Except.error e
        | .ok (v2, r4) =>
          match skipWs r4 with
          | [] => Except.error "EOF while parsing an object"
          | c3 :: r5 =>
            if c3 = ',' then
              match parseObjElems fuel r5 with
              | .ok (kvs2, r6) => Except.ok ((k, v2) :: kvs2, r6)
              | .error e => Except.error e
            else if c3 = rbrace then Except.ok ([(k, v2)], r5)
            else Except.error "expected comma or brace") = .ok ((k, v) :: kvs, rest)
      rw [ihV v (printFieldTail kvs ++ rbrace :: rest) hwv hszv hdl]
      cases kvs with
      | nil => rfl
      | cons kv2 kvs2 =>
        obtain ⟨k2, v2⟩ := kv2
        have hps : k2.data.all plainChar = true ∧ wfJson v2 = true ∧
            wfJsonFields kvs2 = true := by
          simpa [wfJsonFields, Bool.and_eq_true, and_assoc] using hwkvs
        have hsz2 : jsizeFields ((k2, v2) :: kvs2) < fuel := by
          have := jsize_pos v
          simp only [jsizeFields] at hsz ⊢
          omega
        show (match parseObjElems fuel
            ((printField (k2, v2) ++ printFieldTail kvs2) ++ rbrace :: rest) with
          | .ok (kvs2, r6) => Except.ok ((k, v) :: kvs2, r6)
          | .error e => Except.error e) = .ok ((k, v) :: (k2, v2) :: kvs2, rest)
        rw [List.append_assoc, ihO k2 v2 kvs2 rest hps.1 hps.2.1 hps.2.2 hsz2]

/-- One stream-deserializer step consumes exactly one serialized document,
passing the end-of-value check when the document is not self-delineating. -/
theorem streamLoop_step (fuel : Nat) (v : Json) (rest : List Char)
    (hwf : wfJson v = true) (hdl : delimOkB v rest = true)
    (hfuel : jsize v < (printJson v ++ rest).length + 1) :
    streamLoop (fuel + 1) (printJson v ++ rest) = .ok v :: streamLoop fuel rest := by
  obtain ⟨c, t, hv, hw, -, -, hsd⟩ := printJson_head v
  rw [show printJson v ++ rest = c :: (t ++ rest) by rw [hv, List.cons_append]]
  simp only [streamLoop]
  rw [skipWs_cons_not_ws c (t ++ rest) hw]
  show (match parseValue ((c :: (t ++ rest)).length + 1) (c :: (t ++ rest)) with
    | .ok (v, r2) =>
      if selfDelineating c then Except.ok v :: streamLoop fuel r2
      else
        match r2.head? with
        | none => Except.ok v :: streamLoop fuel r2
        | some c2 =>
          if endOfValueOk c2 then Except.ok v :: streamLoop fuel r2
          else [Except.error "trailing characters"]
    | .error e => [Except.error e]) = Except.ok v :: streamLoop fuel rest
  rw [show (c :: (t ++ rest) : List Char) = printJson v ++ rest by
    rw [hv, List.cons_append]]
  rw [(parse_print_roundtrip ((printJson v ++ rest).length + 1)).1 v rest hwf hfuel hdl]
  rw [hsd]
  show (if isSelfDelimJson v then Except.ok v :: streamLoop fuel rest
    else
      match rest.head? with
      | none => Except.ok v :: streamLoop fuel rest
      | some c2 =>
        if endOfValueOk c2 then Except.ok v :: streamLoop fuel rest
        else [Except.error "trailing characters"]) = Except.ok v :: streamLoop fuel rest
  cases hsdv : isSelfDelimJson v with
  | true => rfl
  | false =>
    cases hh : rest.head? with
    | none => rfl
    | some c2 =>
      show (if endOfValueOk c2 then Except.ok v :: streamLoop fuel rest
        else [Except.error "trailing characters"]) = Except.ok v :: streamLoop fuel rest
      have he : endOfValueOk c2 = true := by
        simp only [delimOkB, hsdv, Bool.false_eq_true, if_false, hh] at hdl
        exact hdl
      rw [if_pos he]

/-- A single serialized document decodes to exactly one value. -/
theorem streamLoop_last (fuel : Nat) (v : Json) (hwf : wfJson v = true) :
    streamLoop (fuel + 1) (printJson v) = [.ok v] := by
  have hfuel : jsize v < (printJson v ++ ([] : List Char)).length + 1 := by
    have := jsize_le_printJson v
    rw [List.append_nil]
    omega
  have h := streamLoop_step fuel v [] hwf (delimOkB_nil v) hfuel
  rw [List.append_nil] at h
  rw [h, streamLoop_nil]

/-- Two serialized documents back to back decode to exactly their two
values, in document order. -/
theorem serde_two_docs (v1 v2 : Json) (h1 : wfJson v1 = true)
    (h2 : wfJson v2 = true) (hd : delimOkB v1 (printJson v2) = true) :
    serdeStreamDecode (printJson v1 ++ printJson v2) = [.ok v1, .ok v2] := by
  unfold serdeStreamDecode
  have hfuel : jsize v1 < (printJson v1 ++ printJson v2).length + 1 := by
    have ha := jsize_le_printJson v1
    have hb : (printJson v1).length ≤ (printJson v1 ++ printJson v2).length := by
      simp
    omega
  rw [streamLoop_step ((printJson v1 ++ printJson v2).length) v1 (printJson v2)
    h1 hd hfuel]
  obtain ⟨c1, t1, hv1, -, -, -, -⟩ := printJson_head v1
  have hlen : (printJson v1 ++ printJson v2).length =
      ((printJson v1 ++ printJson v2).length - 1) + 1 := by
    rw [hv1]
    simp
  rw [hlen, streamLoop_last _ v2 h2]

/-! ## Claim theorem: two documents per chunk, order of emission -/

/-- C8: a chunk holding two complete back-to-back JSON documents decodes to
exactly those two values in document order — stated over the serializer for
every pair of well-formed documents whose juxtaposition serde can split —
and, in general, the emitted items follow the arrival order of the chunks
and, within each chunk, document order, as the stream is the in-order
concatenation of the per-chunk item lists. -/
theorem stream_two_docs_in_order :
    (∀ (v1 v2 : Json), wfJson v1 = true → wfJson v2 = true →
      delimOkB v1 (printJson v2) = true →
      Docker.stream_post_into [.ok (String.mk (printJson v1 ++ printJson v2))] =
        [.ok v1, .ok v2]) ∧
    (∀ chunks, Docker.stream_post_into chunks = (chunks.map chunkItems).flatten) := by
  constructor
  · intro v1 v2 h1 h2 hd
    show chunkDecode (String.mk (printJson v1 ++ printJson v2)) ++ tryFlatten [] =
      [.ok v1, .ok v2]
    rw [show tryFlatten ([] : List (Except StreamErr (List (Except StreamErr Json)))) = []
      from rfl, List.append_nil]
    simp only [chunkDecode]
    rw [serde_two_docs v1 v2 h1 h2 hd]
    rfl
  · exact stream_post_into_eq_flatten

/-- Witness for the C8 theorem at the spec's concrete two-document chunk. -/
theorem stream_two_docs_in_order_witness :
    Docker.stream_post_into
        [.ok (String.mk (printJson (.jobj [("a", .jnum 1)]) ++
          printJson (.jobj [("b", .jnum 2)])))] =
      [.ok (.jobj [("a", .jnum 1)]), .ok (.jobj [("b", .jnum 2)])] :=
  stream_two_docs_in_order.1 (.jobj [("a", .jnum 1)]) (.jobj [("b", .jnum 2)]) rfl rfl rfl
